import Mathlib

/-!
Shallow embedding of bin2ics.py (Wakefield bin-collection scraper).

The program scrapes an HTML page for (bin_type, date) collection records
and maps them to calendar events.  The embedding follows the source file:

* DATE_RE, the date regular expression, becomes matchDateAt / searchDate
  (leftmost match; the character classes of the pattern are pairwise
  disjoint, so greedy matching never backtracks across classes and the
  deterministic maximal-munch scan below computes exactly the Python
  match).
* dateutil.parser.parse is an external library; parseDateToken models its
  behaviour on strings of the shape produced by DATE_RE.
* The BeautifulSoup document tree is abstracted to the texts the code
  reads from it: for each div.colldates section, the stripped text of the
  nearest preceding heading, the texts of the div.u-mb-2 blocks of its
  parent container, and the texts of its ul li items.
-/

/-- Python toNat-level character class [A-Za-z] of DATE_RE. -/
def isLetterC (c : Char) : Bool :=
  (65 ≤ c.toNat && c.toNat ≤ 90) || (97 ≤ c.toNat && c.toNat ≤ 122)

/-- Character class \d (ASCII digits 0-9) of DATE_RE. -/
def isDigitC (c : Char) : Bool := 48 ≤ c.toNat && c.toNat ≤ 57

/-- Character class \s of a Python str pattern: ASCII whitespace, the
information separators, and the Unicode space characters. -/
def isSpaceC (c : Char) : Bool :=
  c.toNat = 32 || (9 ≤ c.toNat && c.toNat ≤ 13) || (28 ≤ c.toNat && c.toNat ≤ 31) ||
  c.toNat = 133 || c.toNat = 160 || c.toNat = 5760 ||
  (8192 ≤ c.toNat && c.toNat ≤ 8202) || c.toNat = 8232 || c.toNat = 8233 ||
  c.toNat = 8239 || c.toNat = 8287 || c.toNat = 12288

/-- Python str.lower for the ASCII range (the only casing this program
applies to the texts it manipulates). -/
def pylowerChar (c : Char) : Char :=
  if 65 ≤ c.toNat && c.toNat ≤ 90 then Char.ofNat (c.toNat + 32) else c

/-- DATE_RE = [A-Za-z]+,?\s+\d{1,2}\s+[A-Za-z]+\s+\d{4}, matched at the
head of the character list; returns the matched characters.  All classes
of the pattern are pairwise disjoint, so the greedy Python match is the
maximal-munch scan. -/
def matchDateAt (cs : List Char) : Option (List Char) :=
  let p1 := cs.span isLetterC
  if p1.1.isEmpty then none else
  let pc : List Char × List Char :=
    match p1.2 with
    | ',' :: rest => ([','], rest)
    | r => ([], r)
  let p3 := pc.2.span isSpaceC
  if p3.1.isEmpty then none else
  let p4 := p3.2.span isDigitC
  if p4.1.isEmpty || 2 < p4.1.length then none else
  let p5 := p4.2.span isSpaceC
  if p5.1.isEmpty then none else
  let p6 := p5.2.span isLetterC
  if p6.1.isEmpty then none else
  let p7 := p6.2.span isSpaceC
  if p7.1.isEmpty then none else
  let y := p7.2.takeWhile isDigitC
  if y.length < 4 then none else
  some (p1.1 ++ pc.1 ++ p3.1 ++ p4.1 ++ p5.1 ++ p6.1 ++ p7.1 ++ y.take 4)

/-- DATE_RE.search: the leftmost match of DATE_RE in the text. -/
def searchDate : List Char → Option (List Char)
  | [] => none
  | c :: cs =>
    match matchDateAt (c :: cs) with
    | some m => some m
    | none => searchDate cs

/-- A Python datetime.date value (proleptic Gregorian, year 1..9999). -/
structure PyDate where
  year : Nat
  month : Nat
  day : Nat
deriving DecidableEq

/-- Case-insensitive comparison of a word with a lowercase name, as the
dateutil parser info tables do. -/
def wordIs (w : List Char) (s : String) : Bool := w.map pylowerChar == s.data

/-- Weekday names recognised by dateutil parserinfo (abbreviated and
full, case-insensitive). -/
def isWeekdayName (w : List Char) : Bool :=
  wordIs w "mon" || wordIs w "monday" || wordIs w "tue" || wordIs w "tuesday" ||
  wordIs w "wed" || wordIs w "wednesday" || wordIs w "thu" || wordIs w "thursday" ||
  wordIs w "fri" || wordIs w "friday" || wordIs w "sat" || wordIs w "saturday" ||
  wordIs w "sun" || wordIs w "sunday"

/-- Month names recognised by dateutil parserinfo, mapped to month
numbers (abbreviated and full, case-insensitive). -/
def monthNum (w : List Char) : Option Nat :=
  if wordIs w "jan" || wordIs w "january" then some 1
  else if wordIs w "feb" || wordIs w "february" then some 2
  else if wordIs w "mar" || wordIs w "march" then some 3
  else if wordIs w "apr" || wordIs w "april" then some 4
  else if wordIs w "may" then some 5
  else if wordIs w "jun" || wordIs w "june" then some 6
  else if wordIs w "jul" || wordIs w "july" then some 7
  else if wordIs w "aug" || wordIs w "august" then some 8
  else if wordIs w "sep" || wordIs w "sept" || wordIs w "september" then some 9
  else if wordIs w "oct" || wordIs w "october" then some 10
  else if wordIs w "nov" || wordIs w "november" then some 11
  else if wordIs w "dec" || wordIs w "december" then some 12
  else none

/-- Gregorian leap-year rule used by datetime.date validity. -/
def isLeapYear (y : Nat) : Bool := (y % 4 = 0 && y % 100 ≠ 0) || y % 400 = 0

/-- Days in a month, as datetime.date validity checking uses. -/
def daysInMonth (y m : Nat) : Nat :=
  if m = 2 then (if isLeapYear y then 29 else 28)
  else if m = 4 || m = 6 || m = 9 || m = 11 then 30
  else 31

/-- Decimal value of a digit run. -/
def natOfDigits (ds : List Char) : Nat := ds.foldl (fun a c => a * 10 + (c.toNat - 48)) 0

/-- Modelled from the behaviour of dateutil.parser.parse (external
library, called with dayfirst=False) on texts of the token shape produced
by DATE_RE: word, optional comma, day number, month word, 4-digit year.
The leading word must be a known weekday name (an unknown token raises
ValueError in dateutil), the month word must be a known month name, and
(year, month, day) must be a valid datetime.date (year 0 or an
out-of-range day raises ValueError / OverflowError).  Every failure is
None here, mirroring the except branch of _extract_date. -/
def parseDateToken (cs : List Char) : Option PyDate :=
  let p1 := cs.span isLetterC
  let afterComma : List Char :=
    match p1.2 with
    | ',' :: rest => rest
    | r => r
  let p3 := afterComma.span isSpaceC
  let p4 := p3.2.span isDigitC
  let p5 := p4.2.span isSpaceC
  let p6 := p5.2.span isLetterC
  let p7 := p6.2.span isSpaceC
  let p8 := p7.2.span isDigitC
  if p1.1.isEmpty || p3.1.isEmpty || p4.1.isEmpty || 2 < p4.1.length ||
     p5.1.isEmpty || p6.1.isEmpty || p7.1.isEmpty || p8.1.length ≠ 4 || !p8.2.isEmpty then none
  else if !isWeekdayName p1.1 then none
  else
    match monthNum p6.1 with
    | none => none
    | some m =>
      let d := natOfDigits p4.1
      let y := natOfDigits p8.1
      if 1 ≤ y && y ≤ 9999 && 1 ≤ d && d ≤ daysInMonth y m then some ⟨y, m, d⟩ else none

/-- _extract_date: search the text for DATE_RE and parse the first match;
any failure (no match, unknown token, invalid date) yields None. -/
def _extract_date (text : String) : Option PyDate :=
  match searchDate text.data with
  | none => none
  | some m => parseDateToken m

example : _extract_date "Next collection Monday, 3 March 2025 is due" = some ⟨2025, 3, 3⟩ := by decide
example : _extract_date "Next collection TBD" = none := by decide
example : _extract_date "Friday, 10 January 2025" = some ⟨2025, 1, 10⟩ := by decide
example : _extract_date "" = none := by decide
example : _extract_date "Foo, 3 Blarch 2025" = none := by decide
example : _extract_date "Monday, 31 February 2025 x" = none := by decide

/-- Substring test, as the Python "Next collection" in div.get_text(). -/
def containsSub (pat : List Char) : List Char → Bool
  | [] => pat.isEmpty
  | c :: cs => pat.isPrefixOf (c :: cs) || containsSub pat cs

/-- Whether a block of text contains the marker phrase "Next collection". -/
def hasMarker (s : String) : Bool := containsSub "Next collection".data s.data

/-- A div.colldates section of the scraped page, abstracted to the texts
the code reads: the stripped text of the nearest preceding div.u-mb-4
heading (find_previous, None when absent), the texts of the div.u-mb-2
blocks of the parent container in document order (None when the section
has no parent), and the texts of the ul li items of the section. -/
structure CollSection where
  heading : Option String
  container : Option (List String)
  listItems : List String

/-- Python str of a Nat. -/
def decRepr (n : Nat) : String := toString n

/-- Zero-padded two-digit field of date.isoformat. -/
def pad2 (n : Nat) : String := if n < 10 then "0" ++ decRepr n else decRepr n

/-- Zero-padded four-digit year of date.isoformat. -/
def pad4 (n : Nat) : String :=
  if n < 10 then "000" ++ decRepr n
  else if n < 100 then "00" ++ decRepr n
  else if n < 1000 then "0" ++ decRepr n
  else decRepr n

/-- str(date): the ISO format YYYY-MM-DD. -/
def isoformat (d : PyDate) : String := pad4 d.year ++ "-" ++ pad2 d.month ++ "-" ++ pad2 d.day

/-- The next-collection scan of _scrape: walk the div.u-mb-2 blocks of
the container in order; at the first block containing "Next collection",
extract a date (appending a record, and a verbose log line, only when a
date is found) and break — later blocks are never examined.  Returns the
contributed records and the printed lines. -/
def scanNext (bin_type : String) (verbose : Bool) : List String → List (String × PyDate) × List String
  | [] => ([], [])
  | b :: bs =>
    if hasMarker b then
      match _extract_date b with
      | some d =>
        ([(bin_type, d)],
         if verbose then ["Found next " ++ bin_type ++ ": " ++ isoformat d] else [])
      | none => ([], [])
    else scanNext bin_type verbose bs

/-- One record per list item that yields a date (the future list of
_scrape, no early stop). -/
def liRecords (bin_type : String) (li : String) : List (String × PyDate) :=
  match _extract_date li with
  | some d => [(bin_type, d)]
  | none => []

/-- The records and log lines one div.colldates section contributes to
the collections list: bin type from the heading (fallback "Bin"), then
the next-collection scan of the parent container (skipped when the
section has no parent), then the future list. -/
def sectionRecords (verbose : Bool) (sec : CollSection) : List (String × PyDate) × List String :=
  let bin_type := sec.heading.getD "Bin"
  let next :=
    match sec.container with
    | none => ([], [])
    | some blocks => scanNext bin_type verbose blocks
  (next.1 ++ (sec.listItems.map (liRecords bin_type)).flatten, next.2)

/-- Python date comparison: lexicographic on (year, month, day). -/
def dateLe (a b : PyDate) : Prop :=
  a.year < b.year ∨ (a.year = b.year ∧
    (a.month < b.month ∨ (a.month = b.month ∧ a.day ≤ b.day)))

instance (a b : PyDate) : Decidable (dateLe a b) := by
  unfold dateLe
  exact inferInstance

/-- Comparison by the sort key of _scrape: the date component only. -/
def recLe (a b : String × PyDate) : Bool := decide (dateLe a.2 b.2)

/-- _scrape, from the fetched page abstracted to its section list: the
sections contribute records in document order, the accumulated pairs are
deduplicated with set semantics and sorted ascending by date, and the
verbose log lines are collected in print order.  The iteration order of
a Python set is implementation-defined; it is modelled by List.dedup,
and the date-only sort key leaves ties implementation-defined in the
same way. -/
def _scrape (secs : List CollSection) (verbose : Bool) :
    List (String × PyDate) × List String :=
  let parts := secs.map (sectionRecords verbose)
  let collections := (parts.map Prod.fst).flatten
  ((collections.dedup).mergeSort recLe, (parts.map Prod.snd).flatten)

/-- Python str.lower (ASCII model, applied character-wise). -/
def pylower (s : String) : String := ⟨s.data.map pylowerChar⟩

/-- Python str.upper on one character (ASCII model), as the first
character of str.capitalize. -/
def pyupperChar (c : Char) : Char :=
  if 97 ≤ c.toNat && c.toNat ≤ 122 then Char.ofNat (c.toNat - 32) else c

/-- Python str.capitalize: first character upper-cased, every further
character lower-cased. -/
def pycapitalize (s : String) : String :=
  match s.data with
  | [] => ⟨[]⟩
  | c :: cs => ⟨pyupperChar c :: cs.map pylowerChar⟩

/-- Python str.strip with no argument: remove leading and trailing
whitespace. -/
def pystrip (s : String) : String :=
  ⟨((s.data.dropWhile isSpaceC).reverse.dropWhile isSpaceC).reverse⟩

/-- The EMOJI lookup table of bin2ics.py. -/
def EMOJI (bin_type : String) : Option String :=
  if bin_type = "Household waste" then some "🗑️"
  else if bin_type = "Mixed recycling" then some "♻️"
  else if bin_type = "Garden waste recycling" then some "🌿"
  else none

/-- The SHORT label table of _build_calendar. -/
def SHORT (bin_type : String) : Option String :=
  if bin_type = "Household waste" then some "Household Waste"
  else if bin_type = "Mixed recycling" then some "Recycling"
  else if bin_type = "Garden waste recycling" then some "Garden"
  else none

/-- Event title: the f-string EMOJI.get(bin_type, "") SPACE
SHORT.get(bin_type, bin_type), stripped of surrounding whitespace. -/
def eventName (bin_type : String) : String :=
  pystrip ((EMOJI bin_type).getD "" ++ " " ++ (SHORT bin_type).getD bin_type)

/-- Event description: the template with the lower-cased bin type,
sentence-capitalized. -/
def eventDescription (bin_type : String) : String :=
  pycapitalize ("Put out the " ++ pylower bin_type ++ " bin.")

/-- The normalized event _build_calendar constructs for one record:
title, all-day begin date, description, kerbside location, singleton
category list, and the optional 12-hour display alarm carrying the
title (present only when the DisplayAlarm import succeeded). -/
structure CalendarEvent where
  name : String
  beginDate : PyDate
  description : String
  location : String
  categories : List String
  alarmSummary : Option String
deriving DecidableEq

/-- _build_calendar: one event per (bin_type, date) record, in iteration
order (the ics Calendar stores them in a set whose serialization order is
the external library, so the construction order is the modelled
sequence).  displayAlarm is the DisplayAlarm import capability. -/
def _build_calendar (displayAlarm : Bool) (events : List (String × PyDate)) :
    List CalendarEvent :=
  events.map (fun bd =>
    { name := eventName bd.1
      beginDate := bd.2
      description := eventDescription bd.1
      location := "Kerbside"
      categories := [bd.1]
      alarmSummary := if displayAlarm then some (eventName bd.1) else none })

example : eventName "Household waste" = "🗑️ Household Waste" := by decide
example : eventName "Mixed recycling" = "♻️ Recycling" := by decide
example : eventName "Garden waste recycling" = "🌿 Garden" := by decide
example : eventName "Textile recycling" = "Textile recycling" := by decide
example : eventDescription "Mixed recycling" = "Put out the mixed recycling bin." := by decide

/-- A section list matching the end-to-end scenario of the spec. -/
def exampleDoc : List CollSection :=
  [⟨some "Household waste", some ["Next collection Friday, 10 January 2025"],
    ["Saturday, 7 February 2025"]⟩]

example : ((exampleDoc.map (sectionRecords false)).map Prod.fst).flatten =
    [("Household waste", ⟨2025, 1, 10⟩), ("Household waste", ⟨2025, 2, 7⟩)] := by decide

lemma charOfNat_toNat (n : Nat) (h : n < 55296) : (Char.ofNat n).toNat = n := by
  have hv : n.isValidChar := Or.inl h
  simp [Char.ofNat, hv, Char.ofNatAux, Char.toNat, UInt32.toNat, BitVec.toNat_ofNatLt]

lemma pylowerChar_idem (c : Char) : pylowerChar (pylowerChar c) = pylowerChar c := by
  by_cases h : (65 ≤ c.toNat && c.toNat ≤ 90) = true
  · have hb : 65 ≤ c.toNat ∧ c.toNat ≤ 90 := by simpa using h
    have h1 : pylowerChar c = Char.ofNat (c.toNat + 32) := by
      unfold pylowerChar
      rw [if_pos h]
    have hv : (Char.ofNat (c.toNat + 32)).toNat = c.toNat + 32 :=
      charOfNat_toNat _ (by omega)
    have hneg : ¬((65 ≤ (Char.ofNat (c.toNat + 32)).toNat &&
        (Char.ofNat (c.toNat + 32)).toNat ≤ 90) = true) := by
      simp only [hv, Bool.and_eq_true, decide_eq_true_eq]
      omega
    rw [h1]
    unfold pylowerChar
    rw [if_neg hneg]
  · have h1 : pylowerChar c = c := by
      unfold pylowerChar
      rw [if_neg h]
    rw [h1, h1]

lemma map_pylowerChar_idem (l : List Char) :
    (l.map pylowerChar).map pylowerChar = l.map pylowerChar := by
  rw [List.map_map]
  exact List.map_congr_left (fun a _ => pylowerChar_idem a)

lemma recLe_trans (a b c : String × PyDate) (hab : recLe a b = true)
    (hbc : recLe b c = true) : recLe a c = true := by
  simp only [recLe, decide_eq_true_eq, dateLe] at hab hbc ⊢
  omega

lemma recLe_total (a b : String × PyDate) : (recLe a b || recLe b a) = true := by
  simp only [recLe, Bool.or_eq_true, decide_eq_true_eq, dateLe]
  omega

/-- Claim C1: the Event Mapper is length-preserving and order-preserving:
one CalendarEvent per CollectionRecord in the same order, and at every
index the categories of the mapped event are the singleton of the bin
type of the record there (its begin date being the date of the record
there). -/
theorem mapper_one_event_per_record (displayAlarm : Bool)
    (records : List (String × PyDate)) :
    (_build_calendar displayAlarm records).length = records.length ∧
    ∀ i : Nat,
      ((_build_calendar displayAlarm records)[i]?).map CalendarEvent.categories =
        (records[i]?).map (fun r => [r.1]) ∧
      ((_build_calendar displayAlarm records)[i]?).map CalendarEvent.beginDate =
        (records[i]?).map Prod.snd := by
  refine ⟨by simp [_build_calendar], fun i => ⟨?_, ?_⟩⟩ <;>
    cases h : records[i]? <;> simp [_build_calendar, List.getElem?_map, h]

/-- Claim C2: the Extractor is deterministic: on content-equal parsed
inputs the extraction (a pure function in this embedding) returns
content-equal outputs, the relative order of equal-date records
included. -/
theorem extractor_deterministic (secs1 secs2 : List CollSection) (verbose : Bool)
    (h : secs1 = secs2) : _scrape secs1 verbose = _scrape secs2 verbose := by
  rw [h]

theorem extractor_deterministic_witness :
    _scrape exampleDoc false = _scrape exampleDoc false :=
  extractor_deterministic exampleDoc exampleDoc false rfl

/-- Claim C3: for every input, the Extractor output is sorted
non-decreasing by the date component of each record. -/
theorem extractor_output_sorted_by_date (secs : List CollSection) (verbose : Bool) :
    ((_scrape secs verbose).1).Pairwise (fun a b => dateLe a.2 b.2) := by
  have h := List.sorted_mergeSort recLe_trans recLe_total
    (((secs.map (sectionRecords verbose)).map Prod.fst).flatten.dedup)
  exact h.imp (fun hab => of_decide_eq_true hab)

/-- Claim C4: for every input, the Extractor output holds no duplicate
(bin_type, date) pair, and a pair is in the output exactly when some
section contributed it, so duplicate mentions collapse to one record. -/
theorem extractor_output_no_duplicates (secs : List CollSection) (verbose : Bool) :
    ((_scrape secs verbose).1).Nodup ∧
    ∀ p : String × PyDate,
      p ∈ (_scrape secs verbose).1 ↔
      p ∈ ((secs.map (sectionRecords verbose)).map Prod.fst).flatten := by
  constructor
  · exact (List.mergeSort_perm
      ((((secs.map (sectionRecords verbose)).map Prod.fst).flatten).dedup) recLe).symm.nodup
      (List.nodup_dedup _)
  · intro p
    show p ∈ ((((secs.map (sectionRecords verbose)).map Prod.fst).flatten).dedup).mergeSort recLe ↔ _
    rw [(List.mergeSort_perm _ recLe).mem_iff, List.mem_dedup]

/-- Claim C5: the sibling-block scan stops at the first block containing
the marker phrase "Next collection": the result on any block list whose
first marker block is blk equals the result on blk alone, whatever comes
after it (even when date extraction from blk fails), and every scan
contributes at most one record. -/
theorem next_scan_stops_at_first_marker (bt : String) (verbose : Bool)
    (pre : List String) (blk : String) (post : List String)
    (hpre : ∀ b ∈ pre, hasMarker b = false) (hblk : hasMarker blk = true) :
    scanNext bt verbose (pre ++ blk :: post) = scanNext bt verbose [blk] ∧
    ∀ blocks : List String, (scanNext bt verbose blocks).1.length ≤ 1 := by
  constructor
  · induction pre with
    | nil => simp [scanNext, hblk]
    | cons b bs ih =>
      have hb : hasMarker b = false := hpre b (List.mem_cons_self b bs)
      have ih2 := ih (fun x hx => hpre x (List.mem_cons_of_mem b hx))
      simpa [scanNext, hb] using ih2
  · intro blocks
    induction blocks with
    | nil => simp [scanNext]
    | cons b bs ih =>
      by_cases hb : hasMarker b = true
      · cases hd : _extract_date b <;> simp [scanNext, hb, hd]
      · simpa [scanNext, hb] using ih

theorem next_scan_stops_at_first_marker_witness :
    scanNext "Bin" false
      ["heading text", "Next collection TBD", "Next collection Monday, 3 March 2025"] =
    scanNext "Bin" false ["Next collection TBD"] :=
  (next_scan_stops_at_first_marker "Bin" false ["heading text"] "Next collection TBD"
    ["Next collection Monday, 3 March 2025"] (by decide) (by decide)).1

/-- Claim C6: date extraction is a total function into Option: a text
with no DATE_RE match, or whose first match fails to parse, contributes
None (silently dropped), and in particular "Next collection TBD" yields
no record. -/
theorem extract_date_never_raises :
    (∀ s : String, searchDate s.data = none → _extract_date s = none) ∧
    (∀ s : String, ∀ m : List Char,
      searchDate s.data = some m → parseDateToken m = none → _extract_date s = none) ∧
    _extract_date "Next collection TBD" = none := by
  refine ⟨?_, ?_, by decide⟩
  · intro s h
    simp [_extract_date, h]
  · intro s m h hp
    simp [_extract_date, h, hp]

theorem extract_date_never_raises_witness :
    _extract_date "TBD" = none ∧ _extract_date "Foo, 3 Blarch 2025" = none :=
  ⟨extract_date_never_raises.1 "TBD" (by decide),
   extract_date_never_raises.2.1 "Foo, 3 Blarch 2025" "Foo, 3 Blarch 2025".data
     (by decide) (by decide)⟩

lemma scanNext_fst_verbose (bt : String) (blocks : List String) (v1 v2 : Bool) :
    (scanNext bt v1 blocks).1 = (scanNext bt v2 blocks).1 := by
  induction blocks with
  | nil => rfl
  | cons b bs ih =>
    by_cases hb : hasMarker b = true
    · cases hd : _extract_date b <;> simp [scanNext, hb, hd]
    · simpa [scanNext, hb] using ih

lemma sectionRecords_fst_verbose (sec : CollSection) (v1 v2 : Bool) :
    (sectionRecords v1 sec).1 = (sectionRecords v2 sec).1 := by
  unfold sectionRecords
  cases sec.container with
  | none => rfl
  | some blocks => simp [scanNext_fst_verbose _ blocks v1 v2]

/-- Claim C9: the verbose flag does not affect the extraction result:
the record list of _scrape is the same with verbose enabled and
disabled; only the log output differs. -/
theorem verbose_flag_no_effect (secs : List CollSection) :
    (_scrape secs true).1 = (_scrape secs false).1 := by
  show ((secs.map (sectionRecords true)).map Prod.fst).flatten.dedup.mergeSort recLe =
    ((secs.map (sectionRecords false)).map Prod.fst).flatten.dedup.mergeSort recLe
  have h : (secs.map (sectionRecords true)).map Prod.fst =
      (secs.map (sectionRecords false)).map Prod.fst := by
    rw [List.map_map, List.map_map]
    exact List.map_congr_left (fun sec _ => sectionRecords_fst_verbose sec true false)
  rw [h]

lemma searchDate_first_index (cs : List Char) (m : List Char)
    (h : searchDate cs = some m) :
    ∃ i, matchDateAt (cs.drop i) = some m ∧ ∀ j, j < i → matchDateAt (cs.drop j) = none := by
  induction cs with
  | nil => simp [searchDate] at h
  | cons c cs ih =>
    by_cases hm : matchDateAt (c :: cs) = none
    · have h2 : searchDate cs = some m := by
        rw [searchDate] at h
        rw [hm] at h
        exact h
      obtain ⟨i, hi, hj⟩ := ih h2
      refine ⟨i + 1, by simpa using hi, ?_⟩
      intro j hji
      cases j with
      | zero => simpa using hm
      | succ k => simpa using hj k (by omega)
    · obtain ⟨m0, hm0⟩ := Option.ne_none_iff_exists.mp hm
      have hmm : m0 = m := by
        rw [searchDate, ← hm0] at h
        simpa using h
      exact ⟨0, by simpa using hm0.symm.trans (congrArg some hmm), by omega⟩

/-- Claim C10: a single text fragment contributes at most one record:
the extraction result is the parse of the first DATE_RE match alone
(no match exists at an earlier position, and any further date mentions
in the fragment are never parsed). -/
theorem fragment_first_match_only (s : String) (m : List Char)
    (h : searchDate s.data = some m) :
    _extract_date s = parseDateToken m ∧
    ∃ i, matchDateAt (s.data.drop i) = some m ∧
      ∀ j, j < i → matchDateAt (s.data.drop j) = none := by
  exact ⟨by simp [_extract_date, h], searchDate_first_index s.data m h⟩

theorem fragment_first_match_only_witness :
    _extract_date "Monday, 3 March 2025 then Friday, 4 April 2025" =
      parseDateToken "Monday, 3 March 2025".data :=
  (fragment_first_match_only "Monday, 3 March 2025 then Friday, 4 April 2025"
    "Monday, 3 March 2025".data (by decide)).1

lemma pycapitalize_cons (c : Char) (cs : List Char) :
    pycapitalize ⟨c :: cs⟩ = ⟨pyupperChar c :: cs.map pylowerChar⟩ := rfl

/-- Claim C7: the three known bin types map to their emoji-prefixed
short titles, and any other bin type becomes the title verbatim (with no
emoji prefix and with surrounding whitespace stripped). -/
theorem title_construction :
    eventName "Household waste" = "🗑️ Household Waste" ∧
    eventName "Mixed recycling" = "♻️ Recycling" ∧
    eventName "Garden waste recycling" = "🌿 Garden" ∧
    ∀ bt : String, bt ≠ "Household waste" → bt ≠ "Mixed recycling" →
      bt ≠ "Garden waste recycling" →
      eventName bt = pystrip bt ∧ (pystrip bt = bt → eventName bt = bt) := by
  refine ⟨by decide, by decide, by decide, ?_⟩
  intro bt h1 h2 h3
  have hE : EMOJI bt = none := by simp [EMOJI, h1, h2, h3]
  have hS : SHORT bt = none := by simp [SHORT, h1, h2, h3]
  have he : eventName bt = pystrip bt := by
    unfold eventName
    rw [hE, hS]
    rfl
  exact ⟨he, fun hb => he.trans hb⟩

theorem title_construction_witness :
    eventName "Textile recycling" = pystrip "Textile recycling" ∧
    eventName "Textile recycling" = "Textile recycling" := by
  have h := title_construction.2.2.2 "Textile recycling" (by decide) (by decide) (by decide)
  exact ⟨h.1, h.2 (by decide)⟩

/-- Claim C8: for every bin type the event description is the template
"Put out the LOWER bin." with the bin type lower-cased, the leading
capital P left in place and the embedded words unaffected; in particular
"Mixed recycling" gives "Put out the mixed recycling bin.". -/
theorem description_construction :
    (∀ bt : String, eventDescription bt = "Put out the " ++ pylower bt ++ " bin.") ∧
    eventDescription "Mixed recycling" = "Put out the mixed recycling bin." := by
  refine ⟨?_, by decide⟩
  intro bt
  have h1 : eventDescription bt =
      pycapitalize ⟨'P' :: (("ut out the ".data ++ bt.data.map pylowerChar) ++ " bin.".data)⟩ :=
    rfl
  rw [h1, pycapitalize_cons]
  apply String.ext
  show pyupperChar 'P' ::
      ((("ut out the ".data ++ bt.data.map pylowerChar) ++ " bin.".data).map pylowerChar) =
    ('P' :: ("ut out the ".data ++ bt.data.map pylowerChar)) ++ " bin.".data
  have hu : "ut out the ".data.map pylowerChar = "ut out the ".data := by decide
  have hb : " bin.".data.map pylowerChar = " bin.".data := by decide
  rw [List.map_append, List.map_append, map_pylowerChar_idem, hu, hb]
  simp [List.cons_append, pyupperChar]
